import Mathlib

/-!
Verification of the patch lifecycle and application engine of the
PCAMAW CLI (patch store, patch synthesizer, apply and commit workflow).

Shallow embedding conventions:
  - JavaScript strings holding structured text (diff bodies, file
    contents) are modelled as `List Char`, so that splitting on the
    newline character and joining with it can be reasoned about
    directly.  Plain identifiers (names, paths, operations, messages)
    are modelled as Lean `String`.
  - The on-disk patch store (one JSON document per patch, keyed by
    name) is modelled as an association list from name to a stored
    record.  A stored record is either a well-formed patch - the case
    where JSON.parse of the document succeeds and yields the object
    that was stringified - or a corrupt blob carrying the parse error
    message JSON.parse would produce.  That message is a function of
    the document content alone; the reading code never adds the file
    name to it, which the embedding makes visible.
  - The workspace file system is a map from path to optional content.
  - Interactive prompts and git commands of the commit workflow are
    recorded as an event trace; user answers are an explicit input.
-/

/-- Text content, modelling a JavaScript string as its character list. -/
abbrev Str := List Char

/-- Model of the JavaScript `s.split('\n')`: splits a character list at
every newline, keeping empty segments; the empty string splits to one
empty segment. -/
def splitNL : Str → List Str
  | [] => [[]]
  | c :: rest =>
    if c = '\n' then [] :: splitNL rest
    else
      match splitNL rest with
      | [] => [[c]]
      | l :: ls => (c :: l) :: ls

/-- Model of the JavaScript `parts.join('\n')`: interleaves a newline
between consecutive segments. -/
def joinNL : List Str → Str
  | [] => []
  | [l] => l
  | l :: ls => l ++ '\n' :: joinNL ls

/-- Model of the JavaScript `line.startsWith('+')`. -/
def startsWithPlus : Str → Bool
  | '+' :: _ => true
  | _ => false

/-- Decidable substring test on character lists: `startsWithSeq n h`
holds when `n` is an initial segment of `h`. -/
def startsWithSeq : Str → Str → Bool
  | [], _ => true
  | _ :: _, [] => false
  | a :: n, b :: h => a = b && startsWithSeq n h

/-- Decidable substring test: `containsSeq n h` holds when `n` occurs
contiguously somewhere in `h`.  Used to formalise whether an error
message mentions a record name. -/
def containsSeq (n : Str) : Str → Bool
  | [] => startsWithSeq n []
  | c :: rest => startsWithSeq n (c :: rest) || containsSeq n rest

/-- One proposed file mutation, as stored in a patch record
(see `createPatchFromFiles` and the patch JSON schema).  The `diff`
field is text content; an absent or empty JavaScript diff is modelled
as the empty list, since both are falsy in every test the code makes. -/
structure FileChange where
  path : String
  operation : String
  diff : Str
  size : Int
deriving DecidableEq, Repr

/-- Producer-specific annotations: an opaque JSON object the core never
interprets, modelled as an association list. -/
abbrev Metadata := List (String × String)

/-- A stored patch record, with exactly the five fields the source
object literal in `savePatch` writes. -/
structure Patch where
  name : String
  timestamp : Int
  description : String
  files : List FileChange
  metadata : Metadata
deriving DecidableEq, Repr

/-- The argument object accepted by `savePatch`: each field other than
the name may be absent (JavaScript `undefined`).  A present timestamp
of `0` and a present empty description are falsy in JavaScript and are
modelled as such in `normalizePatch`. -/
structure PatchInput where
  name : String
  timestamp : Option Int
  description : Option String
  files : Option (List FileChange)
  metadata : Option Metadata

/-- One on-disk document of the patch store: either a well-formed patch
(JSON.parse succeeds) or a corrupt blob carrying the parse error
message that JSON.parse would raise for its content. -/
inductive Record where
  | good (p : Patch)
  | corrupt (msg : String)
deriving DecidableEq

/-- The patch store directory: an association list from patch name
(the file stem of the `.json` document) to its stored record, in
directory listing order. -/
abbrev Store := List (String × Record)

/-- The workspace file system: path to optional file content. -/
abbrev FS := String → Option Str

/-- Pointwise file-system update, modelling a write of content `c` at
path `p`. -/
def FS.update (fs : FS) (p : String) (c : Str) : FS :=
  fun q => if q = p then some c else fs q

/-- Association lookup in the store, modelling a read of the document
named `name`.json (`none` is the ENOENT case). -/
def findRecord : Store → String → Option Record
  | [], _ => none
  | (n, r) :: rest, name => if n = name then some r else findRecord rest name

/-- Store write, modelling `fs.writeFile` of the document named after
the patch: overwrites the record of the same name or appends a new one. -/
def setRecord : Store → String → Record → Store
  | [], name, r => [(name, r)]
  | (n, r0) :: rest, name, r =>
    if n = name then (name, r) :: rest else (n, r0) :: setRecord rest name r

namespace PatchManager

/-- Model of `JSON.parse` on one stored document: a well-formed record
yields its patch, a corrupt one raises the parse error message carried
by the record (that message is derived from the document content only). -/
def parseRecord : Record → Except String Patch
  | .good p => .ok p
  | .corrupt m => .error m

/-- Parsing every document of the store in directory order, modelling
the `Promise.all` over `JSON.parse` calls in `listPatches`: the first
parse failure rejects the whole batch with its own message. -/
def parseAll : List Record → Except String (List Patch)
  | [] => .ok []
  | r :: rs =>
    match parseRecord r with
    | .error m => .error m
    | .ok p =>
      match parseAll rs with
      | .error m => .error m
      | .ok ps => .ok (p :: ps)

/-- The comparator `(a, b) => b.timestamp - a.timestamp` passed to
`Array.prototype.sort` in `listPatches`, as the order it sorts by:
`a` precedes `b` when the timestamp of `b` is at most that of `a`. -/
def tsGE (a b : Patch) : Prop := b.timestamp ≤ a.timestamp

instance : DecidableRel tsGE := fun a b => Int.decLe b.timestamp a.timestamp

instance : IsTotal Patch tsGE := ⟨fun a b => le_total b.timestamp a.timestamp⟩

instance : IsTrans Patch tsGE := ⟨fun _ _ _ hab hbc => le_trans hbc hab⟩

/-- `PatchManager.listPatches`: read every `.json` document of the
store directory, parse each, and return the patches sorted newest
first.  A parse failure anywhere fails the whole call, wrapped in the
`Failed to list patches` message. -/
def listPatches (store : Store) : Except String (List Patch) :=
  match parseAll (store.map Prod.snd) with
  | .error m => .error ("Failed to list patches: " ++ m)
  | .ok ps => .ok (List.insertionSort tsGE ps)

/-- `PatchManager.getPatch`: read the document named after the patch;
a missing document (ENOENT) returns `null`, a corrupt one raises the
wrapped read failure. -/
def getPatch (store : Store) (patchName : String) : Except String (Option Patch) :=
  match findRecord store patchName with
  | none => .ok none
  | some (.good p) => .ok (some p)
  | some (.corrupt m) => .error ("Failed to read patch: " ++ m)

/-- The object literal built inside `savePatch`: every falsy optional
field is replaced by its default (`Date.now()` for the timestamp, the
empty string, the empty array, the empty object).  A present timestamp
of `0` is falsy in JavaScript and is also replaced by `now`. -/
def normalizePatch (now : Int) (p : PatchInput) : Patch :=
  { name := p.name
    timestamp :=
      match p.timestamp with
      | some t => if t = 0 then now else t
      | none => now
    description := p.description.getD ""
    files := p.files.getD []
    metadata := p.metadata.getD [] }

/-- `PatchManager.savePatch`: normalize the input object and write it
as the document named after the patch, returning the updated store and
the saved record. -/
def savePatch (store : Store) (now : Int) (p : PatchInput) : Store × Patch :=
  let patchData := normalizePatch now p
  (setRecord store p.name (.good patchData), patchData)

/-- The condition `file.operation === 'create' && file.diff` guarding
the only write in `PatchManager.applyPatch`. -/
def appliesCreate (f : FileChange) : Bool :=
  f.operation == "create" && !f.diff.isEmpty

/-- The content reconstruction in the create branch of
`PatchManager.applyPatch`: split the diff on newlines, keep the lines
starting with a plus sign, drop that first character of each, and join
with newlines. -/
def stripPlus (diff : Str) : Str :=
  joinNL (((splitNL diff).filter startsWithPlus).map List.tail)

/-- One iteration of the loop in `PatchManager.applyPatch` over the
file changes: a create with a non-empty diff writes the reconstructed
content and records the path; a modify with a diff only logs a
warning; anything else does nothing. -/
def applyOne (st : FS × List String) (f : FileChange) : FS × List String :=
  if appliesCreate f then
    (FS.update st.1 f.path (stripPlus f.diff), st.2 ++ [f.path])
  else
    st

/-- `PatchManager.applyPatch`: process the file changes in patch order
and return the updated workspace together with the applied paths. -/
def applyPatch (fs : FS) (p : Patch) : FS × List String :=
  p.files.foldl applyOne (fs, [])

/-- The environment `createPatchFromFiles` runs against: the workspace
content at a relative path, and the outcome of spawning
`git diff HEAD -- path` (`none` models the spawn throwing, for an
untracked file or no repository; `some out` models success with
standard output `out`). -/
structure SynthEnv where
  wsFile : String → Option Str
  gitDiff : String → Option String

/-- The fallback diff built in the catch branch of
`createPatchFromFiles` when `git diff` throws: a /dev/null header
followed by every content line prefixed with a plus sign. -/
def fallbackDiff (filePath : String) (content : Str) : Str :=
  ("--- /dev/null\n+++ b/" ++ filePath ++ "\n").toList ++
    joinNL ((splitNL content).map (fun l => '+' :: l))

/-- The per-file body of the loop in `PatchManager.createPatchFromFiles`:
skip a missing file; otherwise take the git diff output, or the
fallback diff when the git command throws, and record the change with
operation chosen by the truthiness test `diff ? 'modify' : 'create'`. -/
def synthFile (env : SynthEnv) (filePath : String) : Option FileChange :=
  match env.wsFile filePath with
  | none => none
  | some content =>
    let diff : Str :=
      match env.gitDiff filePath with
      | some d => d.toList
      | none => fallbackDiff filePath content
    some { path := filePath
           operation := if diff = [] then "create" else "modify"
           diff := diff
           size := (content.length : Int) }

/-- `PatchManager.createPatchFromFiles`: synthesize a change per
existing input path, assemble the patch object with the current time
and caller options, and delegate to `savePatch`. -/
def createPatchFromFiles (store : Store) (env : SynthEnv) (now : Int)
    (filePaths : List String) (name : Option String) (description : Option String) :
    Store × Patch :=
  savePatch store now
    { name :=
        match name with
        | some n => if n = "" then "patch-" ++ toString now else n
        | none => "patch-" ++ toString now
      timestamp := some now
      description := some (description.getD "")
      files := some (filePaths.filterMap (synthFile env))
      metadata := none }

end PatchManager

namespace CommitWorkflow

/-- The git-side environment of the commit workflow: whether the
working directory is a repository, and the current branch name. -/
structure WfEnv where
  isGitRepo : Bool
  branch : String

/-- The option object of `CommitWorkflow.applyPatch`, carrying the
`--no-commit` and `--auto-push` flags. -/
structure WfOptions where
  skipCommit : Bool
  autoPush : Bool

/-- The answers the interactive prompts receive: the two confirmation
gates, the editor session (a function from the offered default message
to the message the user saves), and the push confirmation. -/
structure WfAnswers where
  confirmApply : Bool
  shouldCommit : Bool
  editMessage : String → String
  shouldPush : Bool

/-- Externally visible steps of one workflow run, in order: prompts
shown to the user, the file application step, and the git commands. -/
inductive WfEvent where
  | promptConfirmApply
  | filesApplied (paths : List String)
  | showStatus
  | promptConfirmCommit
  | promptEditMessage (offered : String)
  | gitAdd
  | gitCommit (message : String)
  | promptConfirmPush
  | gitPush (branch : String)
deriving DecidableEq, Repr

/-- The default commit message built at step 6 of
`CommitWorkflow.applyPatch` (`patch.description || 'Automated changes
from PCAMAW workflow'`, with the empty description falsy). -/
def suggestedMessage (p : Patch) : String :=
  "chore: Apply PCAMAW patch \"" ++ p.name ++ "\"\n\n" ++
    (if p.description = "" then "Automated changes from PCAMAW workflow" else p.description)

/-- `CommitWorkflow.applyPatch`: confirm, apply the patch to the
workspace, then - when inside a git repository and not skipping commit -
confirm commit, collect an edited message, stage and commit, and
finally push either automatically or after one more confirmation.
Every early `return` of the source is a branch that stops the event
trace at that point and returns the workspace reached so far. -/
def applyPatch (env : WfEnv) (opts : WfOptions) (ans : WfAnswers)
    (fs : FS) (p : Patch) : FS × List WfEvent :=
  let ev0 := [WfEvent.promptConfirmApply]
  if ans.confirmApply = false then
    (fs, ev0)
  else
    let applied := PatchManager.applyPatch fs p
    let fs1 := applied.1
    let ev1 := ev0 ++ [WfEvent.filesApplied applied.2]
    if applied.2 = [] then
      (fs1, ev1)
    else if env.isGitRepo = false then
      (fs1, ev1)
    else
      let ev2 := ev1 ++ [WfEvent.showStatus]
      if opts.skipCommit then
        (fs1, ev2)
      else
        let ev3 := ev2 ++ [WfEvent.promptConfirmCommit]
        if ans.shouldCommit = false then
          (fs1, ev3)
        else
          let offered := suggestedMessage p
          let msg := ans.editMessage offered
          let ev4 := ev3 ++ [WfEvent.promptEditMessage offered, WfEvent.gitAdd,
            WfEvent.gitCommit msg]
          if opts.autoPush then
            (fs1, ev4 ++ [WfEvent.gitPush env.branch])
          else
            let ev5 := ev4 ++ [WfEvent.promptConfirmPush]
            if ans.shouldPush then
              (fs1, ev5 ++ [WfEvent.gitPush env.branch])
            else
              (fs1, ev5)

/-- The events of a workflow trace that change the workspace or the
repository: the file application step and the mutating git commands. -/
def isMutation : WfEvent → Bool
  | .filesApplied ps => !ps.isEmpty
  | .gitAdd => true
  | .gitCommit _ => true
  | .gitPush _ => true
  | _ => false

end CommitWorkflow

/-! Helper lemmas about the newline split and join. -/

theorem splitNL_cons_nl (rest : Str) : splitNL ('\n' :: rest) = [] :: splitNL rest := by
  simp [splitNL]

theorem splitNL_ne_nil : ∀ s : Str, splitNL s ≠ []
  | [] => by simp [splitNL]
  | c :: rest => by
    by_cases hc : c = '\n'
    · simp [splitNL, hc]
    · simp only [splitNL, if_neg hc]
      cases h : splitNL rest <;> simp

theorem splitNL_cons_other {c : Char} (rest : Str) (hc : c ≠ '\n')
    {l : Str} {ls : List Str} (hr : splitNL rest = l :: ls) :
    splitNL (c :: rest) = (c :: l) :: ls := by
  simp [splitNL, if_neg hc, hr]

theorem splitNL_append (l s : Str) (hl : ∀ c ∈ l, c ≠ '\n')
    {r : Str} {rs : List Str} (hs : splitNL s = r :: rs) :
    splitNL (l ++ s) = (l ++ r) :: rs := by
  induction l with
  | nil => simpa using hs
  | cons c l ih =>
    have hc : c ≠ '\n' := hl c (by simp)
    have ih' := ih (fun x hx => hl x (by simp [hx]))
    simpa using splitNL_cons_other (l ++ s) hc ih'

theorem splitNL_single (l : Str) (hl : ∀ c ∈ l, c ≠ '\n') : splitNL l = [l] := by
  have h := @splitNL_append l [] hl [] [] (by simp [splitNL])
  simpa using h

theorem splitNL_joinNL : ∀ ls : List Str, ls ≠ [] →
    (∀ l ∈ ls, ∀ c ∈ l, c ≠ '\n') → splitNL (joinNL ls) = ls
  | [], h, _ => absurd rfl h
  | [l], _, hnl => by
    have hj : joinNL [l] = l := rfl
    rw [hj, splitNL_single l (hnl l (by simp))]
  | l :: l2 :: ls, _, hnl => by
    have hrec := splitNL_joinNL (l2 :: ls) (by simp)
      (fun x hx => hnl x (List.mem_cons_of_mem _ hx))
    have hj : joinNL (l :: l2 :: ls) = l ++ '\n' :: joinNL (l2 :: ls) := rfl
    have h2 : splitNL ('\n' :: joinNL (l2 :: ls)) = [] :: l2 :: ls := by
      rw [splitNL_cons_nl, hrec]
    have h3 := splitNL_append l ('\n' :: joinNL (l2 :: ls)) (hnl l (by simp)) h2
    rw [hj]
    simpa using h3

theorem joinNL_cons_ne_nil (x : Str) (xs : List Str) (hx : x ≠ []) :
    joinNL (x :: xs) ≠ [] := by
  cases xs with
  | nil => simpa [joinNL] using hx
  | cons y ys =>
    have hj : joinNL (x :: y :: ys) = x ++ '\n' :: joinNL (y :: ys) := rfl
    rw [hj]
    simp [hx]

/-- Reconstruction identity: stripping the plus prefixes recovers the
joined lines whenever every line is newline-free. -/
theorem stripPlus_plusLines (lines : List Str) (hne : lines ≠ [])
    (hnl : ∀ l ∈ lines, ∀ c ∈ l, c ≠ '\n') :
    PatchManager.stripPlus (joinNL (lines.map (fun l => '+' :: l))) = joinNL lines := by
  have hmne : lines.map (fun l => '+' :: l) ≠ [] := by
    cases lines with
    | nil => exact absurd rfl hne
    | cons a as => simp
  have hmnl : ∀ l ∈ lines.map (fun l => '+' :: l), ∀ c ∈ l, c ≠ '\n' := by
    intro l hlm c hc
    obtain ⟨l0, hl0, rfl⟩ := List.mem_map.mp hlm
    rcases List.mem_cons.mp hc with rfl | hc0
    · decide
    · exact hnl l0 hl0 c hc0
  have hsplit := splitNL_joinNL _ hmne hmnl
  unfold PatchManager.stripPlus
  rw [hsplit]
  have hfilter : (lines.map (fun l => '+' :: l)).filter startsWithPlus =
      lines.map (fun l => '+' :: l) := by
    apply List.filter_eq_self.mpr
    intro a ha
    obtain ⟨l0, _, rfl⟩ := List.mem_map.mp ha
    rfl
  rw [hfilter, List.map_map]
  have hid : (List.tail ∘ fun l : Str => '+' :: l) = id := rfl
  rw [hid, List.map_id]

/-! Helper lemmas about the application fold of `PatchManager.applyPatch`. -/

theorem applyFold_applied : ∀ (files : List FileChange) (fs : FS) (acc : List String),
    (files.foldl PatchManager.applyOne (fs, acc)).2 =
      acc ++ (files.filter PatchManager.appliesCreate).map FileChange.path
  | [], fs, acc => by simp
  | f :: rest, fs, acc => by
    by_cases h : PatchManager.appliesCreate f
    · simp only [List.foldl_cons, PatchManager.applyOne, if_pos h]
      rw [applyFold_applied rest]
      simp [List.filter_cons, h]
    · simp only [List.foldl_cons, PatchManager.applyOne, if_neg h]
      rw [applyFold_applied rest]
      simp [List.filter_cons, h]

theorem applyFold_frame : ∀ (files : List FileChange) (fs : FS) (acc : List String)
    (q : String), (∀ f ∈ files, PatchManager.appliesCreate f = true → f.path ≠ q) →
    (files.foldl PatchManager.applyOne (fs, acc)).1 q = fs q
  | [], fs, acc, q, _ => by simp
  | f :: rest, fs, acc, q, h => by
    by_cases hf : PatchManager.appliesCreate f
    · simp only [List.foldl_cons, PatchManager.applyOne, if_pos hf]
      rw [applyFold_frame rest _ _ q (fun g hg => h g (List.mem_cons_of_mem _ hg))]
      have hne : f.path ≠ q := h f (by simp) hf
      simp only [FS.update]
      rw [if_neg (fun e => hne (Eq.symm e))]
    · simp only [List.foldl_cons, PatchManager.applyOne, if_neg hf]
      exact applyFold_frame rest _ _ q (fun g hg => h g (List.mem_cons_of_mem _ hg))

/-- Claim C2: for a create file change whose diff is exactly the
intended content with every line prefixed by a single plus sign,
applying the patch writes to the path of the change exactly the
original content with the prefixes stripped. -/
theorem c2_create_reconstruction (fs : FS) (name desc path : String) (ts sz : Int)
    (meta : Metadata) (lines : List Str) (hne : lines ≠ [])
    (hnl : ∀ l ∈ lines, ∀ c ∈ l, c ≠ '\n') :
    PatchManager.stripPlus (joinNL (lines.map (fun l => '+' :: l))) = joinNL lines ∧
    (PatchManager.applyPatch fs
      { name := name, timestamp := ts, description := desc,
        files := [{ path := path, operation := "create",
                    diff := joinNL (lines.map (fun l => '+' :: l)), size := sz }],
        metadata := meta }).1 path = some (joinNL lines) := by
  have hstrip := stripPlus_plusLines lines hne hnl
  refine ⟨hstrip, ?_⟩
  obtain ⟨l0, rest0, rfl⟩ : ∃ l0 rest0, lines = l0 :: rest0 := by
    cases lines with
    | nil => exact absurd rfl hne
    | cons a as => exact ⟨a, as, rfl⟩
  have hdne : joinNL (((l0 :: rest0).map (fun l => '+' :: l))) ≠ [] := by
    simp only [List.map_cons]
    exact joinNL_cons_ne_nil _ _ (by simp)
  simp only [List.map_cons] at hstrip hdne
  have hac : PatchManager.appliesCreate
      { path := path, operation := "create",
        diff := joinNL (('+' :: l0) :: rest0.map (fun l => '+' :: l)), size := sz } = true := by
    simp only [PatchManager.appliesCreate, List.isEmpty_iff]
    simpa using hdne
  simp only [PatchManager.applyPatch, List.map_cons, List.foldl_cons, List.foldl_nil,
    PatchManager.applyOne, if_pos hac]
  simp [FS.update, hstrip]

/-- Claim C2 witness: the concrete add-gitignore scenario. -/
theorem c2_witness :
    (["node_modules/".toList, ".env".toList] : List Str) ≠ [] ∧
    "+node_modules/\n+.env".toList =
      joinNL ((["node_modules/".toList, ".env".toList] : List Str).map (fun l => '+' :: l)) ∧
    (PatchManager.applyPatch (fun _ => none)
      { name := "add-gitignore", timestamp := 0, description := "",
        files := [{ path := ".gitignore", operation := "create",
                    diff := "+node_modules/\n+.env".toList, size := 0 }],
        metadata := [] }).1 ".gitignore" = some ("node_modules/\n.env".toList) := by
  refine ⟨by decide, by decide, ?_⟩
  have h := c2_create_reconstruction (fun _ => none) "add-gitignore" "" ".gitignore" 0 0 []
    ["node_modules/".toList, ".env".toList] (by decide) (by decide)
  have h2 := h.2
  have hdiff : joinNL ((["node_modules/".toList, ".env".toList] : List Str).map
      (fun l => '+' :: l)) = "+node_modules/\n+.env".toList := by decide
  have hcont : joinNL (["node_modules/".toList, ".env".toList] : List Str) =
      "node_modules/\n.env".toList := by decide
  rw [hdiff, hcont] at h2
  exact h2

/-- Claim C9: `PatchManager.applyPatch` writes only for create entries
with a non-empty diff; any path not targeted by such an entry keeps its
previous content, and the returned array is exactly the paths of the
written entries in patch order. -/
theorem c9_apply_writes_only_create (fs : FS) (p : Patch) (q : String)
    (h : ∀ f ∈ p.files, PatchManager.appliesCreate f = true → f.path ≠ q) :
    (PatchManager.applyPatch fs p).1 q = fs q ∧
    (PatchManager.applyPatch fs p).2 =
      (p.files.filter PatchManager.appliesCreate).map FileChange.path := by
  constructor
  · exact applyFold_frame p.files fs [] q h
  · simpa using applyFold_applied p.files fs []

/-- Claim C9 witness: a patch with a modify entry, a delete entry, a
create entry with empty diff, and a create entry with a diff; only the
last is applied and the modify target keeps its content. -/
theorem c9_witness :
    (PatchManager.applyPatch
      (fun q => if q = "a" then some ("old".toList) else none)
      { name := "w", timestamp := 1, description := "",
        files := [{ path := "a", operation := "modify", diff := "+x".toList, size := 0 },
                  { path := "b", operation := "delete", diff := "+y".toList, size := 0 },
                  { path := "c", operation := "create", diff := [], size := 0 },
                  { path := "d", operation := "create", diff := "+hi".toList, size := 0 }],
        metadata := [] }).1 "a" = some ("old".toList) ∧
    (PatchManager.applyPatch
      (fun q => if q = "a" then some ("old".toList) else none)
      { name := "w", timestamp := 1, description := "",
        files := [{ path := "a", operation := "modify", diff := "+x".toList, size := 0 },
                  { path := "b", operation := "delete", diff := "+y".toList, size := 0 },
                  { path := "c", operation := "create", diff := [], size := 0 },
                  { path := "d", operation := "create", diff := "+hi".toList, size := 0 }],
        metadata := [] }).2 = ["d"] := by
  have h := c9_apply_writes_only_create
    (fun q => if q = "a" then some ("old".toList) else none)
    { name := "w", timestamp := 1, description := "",
      files := [{ path := "a", operation := "modify", diff := "+x".toList, size := 0 },
                { path := "b", operation := "delete", diff := "+y".toList, size := 0 },
                { path := "c", operation := "create", diff := [], size := 0 },
                { path := "d", operation := "create", diff := "+hi".toList, size := 0 }],
      metadata := [] } "a" (by decide)
  refine ⟨?_, ?_⟩
  · simpa using h.1
  · rw [h.2]
    decide

/-- Claim C7: looking up a name with no record in the store returns the
not-found result rather than an error. -/
theorem c7_get_missing (store : Store) (name : String)
    (h : findRecord store name = none) :
    PatchManager.getPatch store name = .ok none := by
  unfold PatchManager.getPatch
  rw [h]

/-- Claim C7 witness: the concrete lookup of "missing" on the empty
store. -/
theorem c7_witness :
    findRecord [] "missing" = none ∧
    PatchManager.getPatch [] "missing" = Except.ok none :=
  ⟨rfl, c7_get_missing [] "missing" rfl⟩

/-- Claim C8: declining the initial apply confirmation returns with the
workspace unchanged and no mutating step in the trace. -/
theorem c8_decline_no_side_effects (env : CommitWorkflow.WfEnv)
    (opts : CommitWorkflow.WfOptions) (ans : CommitWorkflow.WfAnswers)
    (fs : FS) (p : Patch) (h : ans.confirmApply = false) :
    (CommitWorkflow.applyPatch env opts ans fs p).1 = fs ∧
    ∀ e ∈ (CommitWorkflow.applyPatch env opts ans fs p).2,
      CommitWorkflow.isMutation e = false := by
  constructor
  · simp [CommitWorkflow.applyPatch, h]
  · simp [CommitWorkflow.applyPatch, h, CommitWorkflow.isMutation]

/-- Claim C8 witness: a concrete declined run over a non-empty patch in
a git repository leaves the workspace map untouched. -/
theorem c8_witness :
    (⟨false, true, id, true⟩ : CommitWorkflow.WfAnswers).confirmApply = false ∧
    (CommitWorkflow.applyPatch ⟨true, "main"⟩ ⟨false, false⟩ ⟨false, true, id, true⟩
      (fun _ => none)
      { name := "w8", timestamp := 1, description := "d",
        files := [{ path := "x", operation := "create", diff := "+k".toList, size := 0 }],
        metadata := [] }).1 = (fun _ => none) ∧
    ∀ e ∈ (CommitWorkflow.applyPatch ⟨true, "main"⟩ ⟨false, false⟩ ⟨false, true, id, true⟩
      (fun _ => none)
      { name := "w8", timestamp := 1, description := "d",
        files := [{ path := "x", operation := "create", diff := "+k".toList, size := 0 }],
        metadata := [] }).2, CommitWorkflow.isMutation e = false := by
  have h := c8_decline_no_side_effects ⟨true, "main"⟩ ⟨false, false⟩ ⟨false, true, id, true⟩
    (fun _ => none)
    { name := "w8", timestamp := 1, description := "d",
      files := [{ path := "x", operation := "create", diff := "+k".toList, size := 0 }],
      metadata := [] } rfl
  exact ⟨rfl, h.1, h.2⟩

/-! Helper lemmas about the patch store. -/

theorem parseAll_goods : ∀ ps : List Patch,
    PatchManager.parseAll (ps.map Record.good) = .ok ps
  | [] => rfl
  | p :: ps => by
    simp [PatchManager.parseAll, PatchManager.parseRecord, parseAll_goods ps]

/-- The message of the first corrupt record of a directory listing,
the one whose parse rejection settles the batch. -/
def firstCorruptMsg : List Record → Option String
  | [] => none
  | .good _ :: rs => firstCorruptMsg rs
  | .corrupt m :: _ => some m

theorem parseAll_error_of_corrupt : ∀ (rs : List Record) (m : String),
    firstCorruptMsg rs = some m → PatchManager.parseAll rs = .error m
  | [], m, h => by simp [firstCorruptMsg] at h
  | .good p :: rs, m, h => by
    have hr := parseAll_error_of_corrupt rs m (by simpa [firstCorruptMsg] using h)
    simp [PatchManager.parseAll, PatchManager.parseRecord, hr]
  | .corrupt m0 :: rs, m, h => by
    simp only [firstCorruptMsg, Option.some.injEq] at h
    simp [PatchManager.parseAll, PatchManager.parseRecord, h]

theorem findRecord_setRecord : ∀ (store : Store) (name : String) (r : Record),
    findRecord (setRecord store name r) name = some r
  | [], name, r => by simp [setRecord, findRecord]
  | (n, r0) :: rest, name, r => by
    by_cases h : n = name
    · simp [setRecord, h, findRecord]
    · simp [setRecord, h, findRecord, findRecord_setRecord rest name r]

/-- Two pairwise facts over one list combine pointwise. -/
theorem pairwise_combine {α : Type} {R S T : α → α → Prop}
    (h : ∀ a b, R a b → S a b → T a b) :
    ∀ l : List α, l.Pairwise R → l.Pairwise S → l.Pairwise T
  | [], _, _ => List.Pairwise.nil
  | a :: l, hR, hS => by
    rw [List.pairwise_cons] at hR hS ⊢
    exact ⟨fun b hb => h a b (hR.1 b hb) (hS.1 b hb),
           pairwise_combine h l hR.2 hS.2⟩

/-- Claim C4 (amended part): a store holding at least one corrupt
record makes `listPatches` fail as a whole, with the wrapped parse
message of the first corrupt record; no partial listing is returned. -/
theorem c4_list_fails_on_corrupt (store : Store) (m : String)
    (h : firstCorruptMsg (store.map Prod.snd) = some m) :
    PatchManager.listPatches store = .error ("Failed to list patches: " ++ m) := by
  unfold PatchManager.listPatches
  rw [parseAll_error_of_corrupt _ m h]

/-- Claim C4 witness: one corrupt record fails the whole listing. -/
theorem c4_witness :
    firstCorruptMsg ([("beta", Record.corrupt "bad token")].map Prod.snd) =
      some "bad token" ∧
    PatchManager.listPatches [("beta", Record.corrupt "bad token")] =
      Except.error ("Failed to list patches: " ++ "bad token") :=
  ⟨rfl, c4_list_fails_on_corrupt [("beta", Record.corrupt "bad token")] "bad token" rfl⟩

/-- Claim C4 counterexample: the error raised for a corrupt record
named alpha wraps only the parse message; the name alpha occurs
nowhere in it, so the error does not identify the offending record. -/
theorem c4_counterexample :
    PatchManager.listPatches
      [("alpha", Record.corrupt "Unexpected token u in JSON at position 0")] =
      Except.error "Failed to list patches: Unexpected token u in JSON at position 0" ∧
    containsSeq ("alpha".toList)
      ("Failed to list patches: Unexpected token u in JSON at position 0".toList) = false := by
  constructor
  · rfl
  · decide

/-- Claim C5: when every record parses and timestamps are pairwise
distinct, `listPatches` returns all stored patches in strictly
descending timestamp order. -/
theorem c5_list_sorted_desc (store : Store) (ps : List Patch)
    (hg : store.map Prod.snd = ps.map Record.good)
    (hd : ps.Pairwise (fun a b => a.timestamp ≠ b.timestamp)) :
    ∃ l, PatchManager.listPatches store = .ok l ∧ l.Perm ps ∧
      l.Pairwise (fun a b => b.timestamp < a.timestamp) := by
  refine ⟨List.insertionSort PatchManager.tsGE ps, ?_, ?_, ?_⟩
  · unfold PatchManager.listPatches
    rw [hg, parseAll_goods]
  · exact List.perm_insertionSort _ ps
  · have hsorted : (List.insertionSort PatchManager.tsGE ps).Pairwise PatchManager.tsGE :=
      List.sorted_insertionSort _ ps
    have hsym : ∀ {x y : Patch}, x.timestamp ≠ y.timestamp → y.timestamp ≠ x.timestamp :=
      fun hab => Ne.symm hab
    have hd2 : (List.insertionSort PatchManager.tsGE ps).Pairwise
        (fun a b => a.timestamp ≠ b.timestamp) :=
      ((List.perm_insertionSort PatchManager.tsGE ps).pairwise_iff hsym).mpr hd
    exact pairwise_combine
      (fun a b h1 h2 => lt_of_le_of_ne h1 (fun e => h2 e.symm)) _ hsorted hd2

/-- Claim C5 witness: two well-formed records with distinct timestamps
are listed in some strictly descending order covering both. -/
theorem c5_witness :
    ∃ l, PatchManager.listPatches
        [("p1", Record.good { name := "p1", timestamp := 1, description := "",
                              files := [], metadata := [] }),
         ("p2", Record.good { name := "p2", timestamp := 2, description := "",
                              files := [], metadata := [] })] = .ok l ∧
      l.Perm [{ name := "p1", timestamp := 1, description := "", files := [],
                metadata := [] },
              { name := "p2", timestamp := 2, description := "", files := [],
                metadata := [] }] ∧
      l.Pairwise (fun a b => b.timestamp < a.timestamp) := by
  exact c5_list_sorted_desc _ _ (by decide) (by decide)

/-- Claim C6 counterexample: a fully populated input whose present
timestamp is 0 does not round-trip, because `patch.timestamp ||
Date.now()` treats 0 as falsy and stores the current time instead: the
saved record read back carries timestamp 99, not the given 0. -/
theorem c6_counterexample :
    ((PatchManager.savePatch [] 99
        { name := "p0", timestamp := some 0, description := some "d",
          files := some [], metadata := some [] }).2).timestamp = 99 ∧
    ((PatchManager.savePatch [] 99
        { name := "p0", timestamp := some 0, description := some "d",
          files := some [], metadata := some [] }).2).timestamp ≠ 0 ∧
    PatchManager.getPatch
      (PatchManager.savePatch [] 99
        { name := "p0", timestamp := some 0, description := some "d",
          files := some [], metadata := some [] }).1 "p0" =
      Except.ok (some ((PatchManager.savePatch [] 99
        { name := "p0", timestamp := some 0, description := some "d",
          files := some [], metadata := some [] }).2)) := by
  refine ⟨rfl, by decide, rfl⟩

/-- Claim C6 (amended part): saving a fully populated patch record with
a nonzero timestamp and reading it back by name yields a structurally
identical record. -/
theorem c6_roundtrip (store : Store) (now t : Int) (name d : String)
    (fl : List FileChange) (m : Metadata) (ht : t ≠ 0) :
    (PatchManager.savePatch store now
        { name := name, timestamp := some t, description := some d,
          files := some fl, metadata := some m }).2 =
      { name := name, timestamp := t, description := d, files := fl, metadata := m } ∧
    PatchManager.getPatch
      (PatchManager.savePatch store now
        { name := name, timestamp := some t, description := some d,
          files := some fl, metadata := some m }).1 name =
      .ok (some { name := name, timestamp := t, description := d,
                  files := fl, metadata := m }) := by
  have hnorm : PatchManager.normalizePatch now
      { name := name, timestamp := some t, description := some d,
        files := some fl, metadata := some m } =
      { name := name, timestamp := t, description := d, files := fl, metadata := m } := by
    simp [PatchManager.normalizePatch, ht]
  constructor
  · simp [PatchManager.savePatch, hnorm]
  · simp [PatchManager.savePatch, hnorm, PatchManager.getPatch, findRecord_setRecord]

/-- Claim C6 witness: a concrete fully populated record survives the
save and read round trip unchanged. -/
theorem c6_witness :
    PatchManager.getPatch
      (PatchManager.savePatch [] 99
        { name := "p", timestamp := some 5, description := some "desc",
          files := some [{ path := "a", operation := "create",
                           diff := "+x".toList, size := 2 }],
          metadata := some [("k", "v")] }).1 "p" =
      Except.ok (some { name := "p", timestamp := 5, description := "desc",
                        files := [{ path := "a", operation := "create",
                                    diff := "+x".toList, size := 2 }],
                        metadata := [("k", "v")] }) :=
  (c6_roundtrip [] 99 5 "p" "desc"
    [{ path := "a", operation := "create", diff := "+x".toList, size := 2 }]
    [("k", "v")] (by decide)).2

/-- Claim C10: every record written by `savePatch` is the normalized
object with exactly the five schema fields; absent inputs get their
defaults, and the record read back by name is that full record. -/
theorem c10_save_normalizes (store : Store) (now : Int) (p : PatchInput) :
    PatchManager.getPatch (PatchManager.savePatch store now p).1 p.name =
      .ok (some ((PatchManager.savePatch store now p).2)) ∧
    ((PatchManager.savePatch store now p).2).name = p.name ∧
    (p.timestamp = none → ((PatchManager.savePatch store now p).2).timestamp = now) ∧
    (p.description = none → ((PatchManager.savePatch store now p).2).description = "") ∧
    (p.files = none → ((PatchManager.savePatch store now p).2).files = []) ∧
    (p.metadata = none → ((PatchManager.savePatch store now p).2).metadata = []) := by
  refine ⟨?_, rfl, ?_, ?_, ?_, ?_⟩
  · simp [PatchManager.savePatch, PatchManager.getPatch, findRecord_setRecord]
  · intro h
    simp [PatchManager.savePatch, PatchManager.normalizePatch, h]
  · intro h
    simp [PatchManager.savePatch, PatchManager.normalizePatch, h]
  · intro h
    simp [PatchManager.savePatch, PatchManager.normalizePatch, h]
  · intro h
    simp [PatchManager.savePatch, PatchManager.normalizePatch, h]

/-- Claim C10 witness: an input with every optional field absent is
stored with the default timestamp, description, files and metadata,
and reads back as a full record. -/
theorem c10_witness :
    PatchManager.getPatch
      (PatchManager.savePatch [] 7
        { name := "n", timestamp := none, description := none,
          files := none, metadata := none }).1 "n" =
      Except.ok (some ((PatchManager.savePatch [] 7
        { name := "n", timestamp := none, description := none,
          files := none, metadata := none }).2)) ∧
    ((PatchManager.savePatch [] 7
        { name := "n", timestamp := none, description := none,
          files := none, metadata := none }).2).timestamp = 7 ∧
    ((PatchManager.savePatch [] 7
        { name := "n", timestamp := none, description := none,
          files := none, metadata := none }).2).description = "" ∧
    ((PatchManager.savePatch [] 7
        { name := "n", timestamp := none, description := none,
          files := none, metadata := none }).2).files = [] ∧
    ((PatchManager.savePatch [] 7
        { name := "n", timestamp := none, description := none,
          files := none, metadata := none }).2).metadata = [] := by
  have h := c10_save_normalizes [] 7
    { name := "n", timestamp := none, description := none,
      files := none, metadata := none }
  exact ⟨h.1, h.2.2.1 rfl, h.2.2.2.1 rfl, h.2.2.2.2.1 rfl, h.2.2.2.2.2 rfl⟩

/-- Claim C1: the synthesizer on a workspace file whose git diff step
throws (no tracked history).  The fallback diff is built and is never
empty, so the truthiness test `diff ? 'modify' : 'create'` marks the
change `modify`, not `create` as specified: evaluated here on the
concrete untracked file notes.txt with content hello. -/
theorem c1_untracked_marked_modify :
    (PatchManager.synthFile
      { wsFile := fun p => if p = "notes.txt" then some ("hello".toList) else none,
        gitDiff := fun _ => none } "notes.txt").map FileChange.operation =
      some "modify" ∧
    (PatchManager.synthFile
      { wsFile := fun p => if p = "notes.txt" then some ("hello".toList) else none,
        gitDiff := fun _ => none } "notes.txt").map FileChange.operation ≠
      some "create" ∧
    (PatchManager.synthFile
      { wsFile := fun p => if p = "notes.txt" then some ("hello".toList) else none,
        gitDiff := fun _ => none } "notes.txt").map FileChange.diff =
      some (PatchManager.fallbackDiff "notes.txt" ("hello".toList)) ∧
    PatchManager.fallbackDiff "notes.txt" ("hello".toList) ≠ [] := by
  refine ⟨rfl, by decide, rfl, by decide⟩

/-- Claim C3 (amended part): whenever the workflow reaches the commit
message step - apply confirmed with at least one applied file, inside a
git repository, commit not skipped and confirmed - the default message
offered for editing is exactly the PCAMAW-prefixed form with the
description, or the fallback text when the description is empty. -/
theorem c3_default_commit_message (env : CommitWorkflow.WfEnv)
    (opts : CommitWorkflow.WfOptions) (ans : CommitWorkflow.WfAnswers)
    (fs : FS) (p : Patch)
    (hc : ans.confirmApply = true)
    (ha : (PatchManager.applyPatch fs p).2 ≠ [])
    (hg : env.isGitRepo = true)
    (hs : opts.skipCommit = false)
    (hcm : ans.shouldCommit = true) :
    CommitWorkflow.WfEvent.promptEditMessage
      ("chore: Apply PCAMAW patch \"" ++ p.name ++ "\"\n\n" ++
        (if p.description = "" then "Automated changes from PCAMAW workflow"
         else p.description)) ∈ (CommitWorkflow.applyPatch env opts ans fs p).2 := by
  simp only [CommitWorkflow.applyPatch, CommitWorkflow.suggestedMessage,
    hc, hg, hs, hcm, ha]
  split_ifs <;> simp_all

/-- Claim C3 counterexample: a concrete run that reaches the message
step offers the PCAMAW-prefixed default; the default stated by the
claim, without the PCAMAW word, is never offered in that run. -/
theorem c3_counterexample :
    CommitWorkflow.WfEvent.promptEditMessage
        "chore: Apply PCAMAW patch \"add-gitignore\"\n\nAdd gitignore" ∈
      (CommitWorkflow.applyPatch ⟨true, "main"⟩ ⟨false, false⟩ ⟨true, true, id, false⟩
        (fun _ => none)
        { name := "add-gitignore", timestamp := 1, description := "Add gitignore",
          files := [{ path := ".gitignore", operation := "create",
                      diff := "+node_modules/\n+.env".toList, size := 0 }],
          metadata := [] }).2 ∧
    CommitWorkflow.WfEvent.promptEditMessage
        "chore: Apply patch \"add-gitignore\"\n\nAdd gitignore" ∉
      (CommitWorkflow.applyPatch ⟨true, "main"⟩ ⟨false, false⟩ ⟨true, true, id, false⟩
        (fun _ => none)
        { name := "add-gitignore", timestamp := 1, description := "Add gitignore",
          files := [{ path := ".gitignore", operation := "create",
                      diff := "+node_modules/\n+.env".toList, size := 0 }],
          metadata := [] }).2 := by
  constructor
  · decide
  · decide

/-- Claim C3 witness: the amended theorem instantiated at the concrete
add-gitignore run. -/
theorem c3_witness :
    CommitWorkflow.WfEvent.promptEditMessage
        "chore: Apply PCAMAW patch \"add-gitignore\"\n\nAdd gitignore" ∈
      (CommitWorkflow.applyPatch ⟨true, "main"⟩ ⟨false, true⟩ ⟨true, true, id, false⟩
        (fun _ => none)
        { name := "add-gitignore", timestamp := 1, description := "Add gitignore",
          files := [{ path := ".gitignore", operation := "create",
                      diff := "+node_modules/\n+.env".toList, size := 0 }],
          metadata := [] }).2 := by
  have h := c3_default_commit_message ⟨true, "main"⟩ ⟨false, true⟩ ⟨true, true, id, false⟩
    (fun _ => none)
    { name := "add-gitignore", timestamp := 1, description := "Add gitignore",
      files := [{ path := ".gitignore", operation := "create",
                  diff := "+node_modules/\n+.env".toList, size := 0 }],
      metadata := [] } rfl (by decide) rfl rfl rfl
  simpa using h
